import Mathlib

/-!
# Verification of the thor-os VFS core (`src/kernel/src/vfs/vfs.cpp`)

Shallow embedding of the mount registry, path dispatch, and the VFS facade
operations.  Byte strings (`std::string`, C strings) are modelled as lists of
natural numbers (`bstr`); filesystem backends are modelled as records of
functions following the backend contract; buffer writes are modelled as the
byte trace the code emits.  Definitions are translated from the source file;
the `path` class, the error-code constants, the open flags and the on-wire
record headers are not part of the sources and are modelled from the
specification (their doc comments say so).
-/

set_option autoImplicit false

namespace ThorVfs

/-- A byte string (`std::string` / C string contents). -/
abbrev bstr := List Nat

/-- `vfs::partition_type` (values enumerated in the spec and used in
`vfs.cpp`). -/
inductive PartitionType where
  | FAT32
  | SYSFS
  | DEVFS
  | PROCFS
  | UNKNOWN
  deriving DecidableEq, Repr

/-- `vfs::file` metadata as used by `vfs.cpp` (fields `file_name`, `size`,
`directory`, `system`, `hidden`, `created`, `modified`, `accessed`). -/
structure File where
  file_name : bstr
  size : Nat
  directory : Bool
  system : Bool
  hidden : Bool
  created : Nat
  modified : Nat
  accessed : Nat
  deriving DecidableEq, Repr

/-- `vfs::stat_info` record: `size`, `flags` bitset and three timestamps. -/
structure StatInfo where
  size : Nat
  flags : Nat
  created : Nat
  modified : Nat
  accessed : Nat
  deriving DecidableEq, Repr

/-- Modelled from the spec: the `path` class (`vfs/path.hpp` is not in the
sources).  A Path is an ordered sequence of name segments plus a flag telling
whether the path is rooted at the global root. -/
structure Path where
  rooted : Bool
  segments : List bstr
  deriving DecidableEq, Repr

/-- Modelled from the spec: a rooted path with zero segments denotes the
global root (`path::is_root`). -/
def Path.is_root (p : Path) : Bool :=
  p.rooted && p.segments.isEmpty

/-- Modelled from the spec: `path::empty` — no segments. -/
def Path.empty (p : Path) : Bool :=
  p.segments.isEmpty

/-- Modelled from the spec: `path::sub_path(k)` returns the suffix after
dropping the first `k` segments, preserving rootedness. -/
def Path.sub_path (p : Path) (k : Nat) : Path :=
  ⟨p.rooted, p.segments.drop k⟩

/-- The result of a backend `read`: the status code, the out-parameter
`read`, and the bytes the backend wrote at the start of the caller buffer. -/
structure ReadResult where
  code : Int
  read : Nat
  data : bstr

/-- The filesystem-backend contract (`vfs::file_system`): each operation
returns `0` on success or a positive error code.  Only the operations the
claims exercise are modelled. -/
structure FileSystem where
  get_file : Path → Int × File
  touch : Path → Int
  mkdir : Path → Int
  rm : Path → Int
  read : Path → Nat → Nat → ReadResult
  write : Path → bstr → Nat → Nat → Int × Nat
  ls : Path → Int × List File
  statfs : Int

/-- `mounted_fs`: one record per live mount.  `mp_vec` is computed from
`mount_point` by the constructor via `std::split(mount_point, '/')`. -/
structure MountedFs where
  fs_type : PartitionType
  device : bstr
  mount_point : bstr
  mp_vec : List bstr
  file_system : FileSystem

/-! ## Spec-modelled library primitives -/

/-- The accumulator loop of `splitSlash`: `cur` holds the reversed bytes of
the segment currently being collected. -/
def splitSlashAux : List Nat → List Nat → List (List Nat)
  | [], cur => if cur.isEmpty then [] else [cur.reverse]
  | c :: cs, cur =>
    if c = 47 then
      if cur.isEmpty then splitSlashAux cs [] else cur.reverse :: splitSlashAux cs []
    else
      splitSlashAux cs (c :: cur)

/-- Modelled from the spec: `std::split(s, '/')` — split a byte string on
`'/'` (byte 47), discarding empty segments (the tlib string library is not in
the sources). -/
def splitSlash (s : List Nat) : List (List Nat) :=
  splitSlashAux s []

/-- Modelled from the spec: error-code constants from `errors.hpp` (not in
the sources); the exact numeric values are unknown, only distinctness and
positivity matter. -/
def ERROR_INVALID_FILE_DESCRIPTOR : Int := 1

/-- Modelled from the spec: see `ERROR_INVALID_FILE_DESCRIPTOR`. -/
def ERROR_INVALID_FILE_PATH : Int := 2

/-- Modelled from the spec: see `ERROR_INVALID_FILE_DESCRIPTOR`. -/
def ERROR_INVALID_FILE_SYSTEM : Int := 3

/-- Modelled from the spec: see `ERROR_INVALID_FILE_DESCRIPTOR`. -/
def ERROR_ALREADY_MOUNTED : Int := 4

/-- Modelled from the spec: see `ERROR_INVALID_FILE_DESCRIPTOR`. -/
def ERROR_NOT_EXISTS : Int := 5

/-- Modelled from the spec: see `ERROR_INVALID_FILE_DESCRIPTOR`. -/
def ERROR_BUFFER_SMALL : Int := 6

/-- Modelled from the spec: the `OPEN_CREATE` flag bit from `flags.hpp` (not
in the sources; the exact bit is unknown). -/
def OPEN_CREATE : Nat := 1

/-- Modelled from the spec: the `STAT_FLAG_DIRECTORY` bit. -/
def STAT_FLAG_DIRECTORY : Nat := 1

/-- Modelled from the spec: the `STAT_FLAG_SYSTEM` bit. -/
def STAT_FLAG_SYSTEM : Nat := 2

/-- Modelled from the spec: the `STAT_FLAG_HIDDEN` bit. -/
def STAT_FLAG_HIDDEN : Nat := 4

/-- Modelled from the spec: `sizeof(directory_entry)` per the DirectoryEntry
serialization schema of §6 — three 8-byte fields followed by the inline name
and a NUL, hence `3 * 8 + 1` fixed bytes (`directory_entry.hpp` is not in the
sources). -/
def sizeof_directory_entry : Nat := 3 * 8 + 1

/-- The little-endian memory image of a `size_t` (x86-64) field assignment:
eight bytes, values reduced mod `2 ^ 64` by the machine representation. -/
def encodeWord (n : Nat) : List Nat :=
  [n % 256, n / 256 % 256, n / 256 ^ 2 % 256, n / 256 ^ 3 % 256,
   n / 256 ^ 4 % 256, n / 256 ^ 5 % 256, n / 256 ^ 6 % 256, n / 256 ^ 7 % 256]

/-! ## Embedding of `vfs.cpp` -/

/-- `partition_type_to_string` (vfs.cpp): the textual form of the variant,
as bytes. -/
def partition_type_to_string : PartitionType → bstr
  | .FAT32 => [70, 65, 84, 51, 50]
  | .SYSFS => [115, 121, 115, 102, 115]
  | .DEVFS => [100, 101, 118, 102, 115]
  | .PROCFS => [112, 114, 111, 99, 102, 115]
  | .UNKNOWN => [85, 110, 107, 110, 111, 119, 110]

/-- `get_path` (vfs.cpp): a string starting with `'/'` becomes a rooted
absolute Path; otherwise the working directory's segments are extended with
the string's segments. -/
def get_path (cwd : Path) (file_path : bstr) : Path :=
  if file_path.head? = some 47 then ⟨true, splitSlash file_path⟩
  else ⟨cwd.rooted, cwd.segments ++ splitSlash file_path⟩

/-- The inner prefix-comparison loop of `get_fs` (vfs.cpp): compares
`mp_vec[j]` against `base_path[j]` only for
`j < min (mp_vec.size()) (base_path.size())`. -/
def truncMatch : List bstr → List bstr → Bool
  | [], _ => true
  | _ :: _, [] => true
  | a :: as, b :: bs => a == b && truncMatch as bs

/-- The scan loop of `get_fs` (vfs.cpp): walks the registry keeping the best
matching segment count (`best`, strict improvement required) and its index
(`best_match`, initially `0`); returns the final `best_match`. -/
def scanAux (segs : List bstr) : List MountedFs → Nat → Nat → Nat → Nat
  | [], _, _, best_match => best_match
  | m :: ms, i, best, best_match =>
    if truncMatch m.mp_vec segs ∧ best < m.mp_vec.length then
      scanAux segs ms (i + 1) m.mp_vec.length i
    else
      scanAux segs ms (i + 1) best best_match

/-- `get_fs` (vfs.cpp): for the global root, return the first mount with
empty `mp_vec`; otherwise run the scan loop and index the registry with the
resulting `best_match`.  `none` models the out-of-bounds access the C++ code
would make on a registry for which no index is produced. -/
def get_fs (mounts : List MountedFs) (base_path : Path) : Option MountedFs :=
  if base_path.is_root then
    match mounts.find? (fun m => m.mp_vec.isEmpty) with
    | some m => some m
    | none => mounts.get? (scanAux base_path.segments mounts 0 0 0)
  else
    mounts.get? (scanAux base_path.segments mounts 0 0 0)

/-- `get_fs_path` (vfs.cpp): the backend-local path, obtained by dropping the
selected mount's segments. -/
def get_fs_path (base_path : Path) (fs : MountedFs) : Path :=
  base_path.sub_path fs.mp_vec.length

/-- `get_new_fs` (vfs.cpp): backend construction, parameterized by an
abstract backend factory `mk`; the `default` switch case yields `nullptr`
(`none`), which happens exactly for `UNKNOWN`. -/
def get_new_fs (mk : PartitionType → bstr → bstr → FileSystem)
    (type : PartitionType) (mount_point device : bstr) : Option FileSystem :=
  match type with
  | .FAT32 => some (mk .FAT32 mount_point device)
  | .SYSFS => some (mk .SYSFS mount_point device)
  | .DEVFS => some (mk .DEVFS mount_point device)
  | .PROCFS => some (mk .PROCFS mount_point device)
  | .UNKNOWN => none

/-- The `mounted_fs` constructor (vfs.cpp): caches
`mp_vec = std::split(mount_point, '/')`. -/
def mkMountedFs (type : PartitionType) (device mount_point : bstr)
    (fs : FileSystem) : MountedFs :=
  ⟨type, device, mount_point, splitSlash mount_point, fs⟩

/-- The `/`-delimited join performed by the fd form of `vfs::mount`
(vfs.cpp): start from `"/"`, then append `segment + "/"` for each segment. -/
def joinSegs (segs : List bstr) : bstr :=
  47 :: segs.flatMap (fun s => s ++ [47])

/-- `vfs::mount` (fd form, vfs.cpp): resolve both descriptors, join the
paths, reject duplicates with `ALREADY_MOUNTED`, construct the backend
(`INVALID_FILE_SYSTEM` on `nullptr`), then append the entry.  Returns the
status word and the new registry. -/
def vfs_mount_fd (mk : PartitionType → bstr → bstr → FileSystem)
    (handles : Nat → Option Path) (reg : List MountedFs)
    (type : PartitionType) (mp_fd dev_fd : Nat) : Int × List MountedFs :=
  match handles mp_fd with
  | none => (-ERROR_INVALID_FILE_DESCRIPTOR, reg)
  | some mp_path =>
    match handles dev_fd with
    | none => (-ERROR_INVALID_FILE_DESCRIPTOR, reg)
    | some dev_path =>
      let mp := joinSegs mp_path.segments
      let device := joinSegs dev_path.segments
      if reg.any (fun m => m.mount_point == mp) then
        (-ERROR_ALREADY_MOUNTED, reg)
      else
        match get_new_fs mk type mp device with
        | none => (-ERROR_INVALID_FILE_SYSTEM, reg)
        | some fs => (0, reg ++ [mkMountedFs type device mp fs])

/-- `vfs::mount` (raw-string form, vfs.cpp): construct the backend and append
the entry; no duplicate check is performed. -/
def vfs_mount_raw (mk : PartitionType → bstr → bstr → FileSystem)
    (reg : List MountedFs) (type : PartitionType)
    (mount_point device : bstr) : Int × List MountedFs :=
  match get_new_fs mk type mount_point device with
  | none => (-ERROR_INVALID_FILE_SYSTEM, reg)
  | some fs => (0, reg ++ [mkMountedFs type device mount_point fs])

/-- `vfs::statfs` (vfs.cpp): empty mount-point string fails
`INVALID_FILE_PATH`; otherwise resolve and return the backend's `statfs`
result.  `none` models the out-of-bounds registry access. -/
def vfs_statfs (reg : List MountedFs) (cwd : Path) (mount_point : bstr) :
    Option Int :=
  if mount_point.length = 0 then some (-ERROR_INVALID_FILE_PATH)
  else
    match get_fs reg (get_path cwd mount_point) with
    | none => none
    | some fs => some fs.file_system.statfs

/-- `vfs::open` (vfs.cpp).  The scheduler handle table is modelled as the
list of registered absolute paths; `register_new_handle` appends and returns
the fresh index.  Returns the status word and the handle table. -/
def vfs_open (reg : List MountedFs) (cwd : Path) (table : List Path)
    (file_path : bstr) (flags : Nat) : Option (Int × List Path) :=
  if file_path.isEmpty then some (-ERROR_INVALID_FILE_PATH, table)
  else
    let base_path := get_path cwd file_path
    match get_fs reg base_path with
    | none => none
    | some fs =>
      let fs_path := get_fs_path base_path fs
      if fs_path.is_root then
        some (((table.length : Nat) : Int), table ++ [base_path])
      else
        let sub_result : Int :=
          if flags &&& OPEN_CREATE ≠ 0 then
            let r := (fs.file_system.get_file fs_path).1
            if r = ERROR_NOT_EXISTS then fs.file_system.touch fs_path else r
          else
            (fs.file_system.get_file fs_path).1
        if sub_result > 0 then some (-sub_result, table)
        else some (((table.length : Nat) : Int), table ++ [base_path])

/-- `vfs::mkdir` (vfs.cpp). -/
def vfs_mkdir (reg : List MountedFs) (cwd : Path) (file_path : bstr) :
    Option Int :=
  if file_path.isEmpty then some (-ERROR_INVALID_FILE_PATH)
  else
    let base_path := get_path cwd file_path
    match get_fs reg base_path with
    | none => none
    | some fs => some (fs.file_system.mkdir (get_fs_path base_path fs))

/-- `vfs::rm` (vfs.cpp). -/
def vfs_rm (reg : List MountedFs) (cwd : Path) (file_path : bstr) :
    Option Int :=
  if file_path.isEmpty then some (-ERROR_INVALID_FILE_PATH)
  else
    let base_path := get_path cwd file_path
    match get_fs reg base_path with
    | none => none
    | some fs => some (fs.file_system.rm (get_fs_path base_path fs))

/-- `vfs::stat` (vfs.cpp): resolve the descriptor; for an empty backend-local
path, synthesize `size = 4096` and the directory flag on the caller's
`stat_info` (the timestamp fields are not written); otherwise translate the
backend's `get_file` metadata.  Returns the status word and the `stat_info`
out-parameter's final contents. -/
def vfs_stat (reg : List MountedFs) (table : List Path) (fd : Nat)
    (info : StatInfo) : Option (Int × StatInfo) :=
  match table.get? fd with
  | none => some (-ERROR_INVALID_FILE_DESCRIPTOR, info)
  | some base_path =>
    match get_fs reg base_path with
    | none => none
    | some fs =>
      let fs_path := get_fs_path base_path fs
      if fs_path.empty then
        some (0, { info with size := 4096, flags := STAT_FLAG_DIRECTORY })
      else
        let (result, f) := fs.file_system.get_file fs_path
        if result > 0 then some (-result, info)
        else
          some (0,
            { size := f.size
              flags :=
                (if f.directory then STAT_FLAG_DIRECTORY else 0) |||
                (if f.system then STAT_FLAG_SYSTEM else 0) |||
                (if f.hidden then STAT_FLAG_HIDDEN else 0)
              created := f.created
              modified := f.modified
              accessed := f.accessed })

/-- `vfs::direct_read` (buffer form, vfs.cpp): no empty-path check; resolve
the inline path and dispatch to the backend `read`. -/
def vfs_direct_read (reg : List MountedFs) (cwd : Path) (file : bstr)
    (count offset : Nat) : Option Int :=
  let base_path := get_path cwd file
  match get_fs reg base_path with
  | none => none
  | some fs =>
    let r := fs.file_system.read (get_fs_path base_path fs) count offset
    if r.code > 0 then some (-r.code) else some ((r.read : Nat) : Int)

/-- `vfs::direct_write` (vfs.cpp): no empty-path check; resolve the inline
path and dispatch to the backend `write`. -/
def vfs_direct_write (reg : List MountedFs) (cwd : Path) (file : bstr)
    (buffer : bstr) (count offset : Nat) : Option Int :=
  let base_path := get_path cwd file
  match get_fs reg base_path with
  | none => none
  | some fs =>
    let (code, written) :=
      fs.file_system.write (get_fs_path base_path fs) buffer count offset
    if code > 0 then some (-code) else some ((written : Nat) : Int)

/-- Write `data` at the start of buffer `l`, leaving the tail unchanged. -/
def writeAt (l : List Nat) (data : List Nat) : List Nat :=
  data ++ l.drop data.length

/-- `vfs::direct_read` (growable-string form, vfs.cpp): `get_file` to learn
the size, reserve `size + 1` bytes, read `size` bytes at offset `0`, place a
NUL at the byte count actually read and adjust the logical length to it.
Returns the status word, the string's buffer bytes and its logical length
(`content` is the caller string's prior buffer contents). -/
def vfs_direct_read_str (reg : List MountedFs) (cwd : Path)
    (file_path : bstr) (content : List Nat) : Option (Int × List Nat × Nat) :=
  let base_path := get_path cwd file_path
  match get_fs reg base_path with
  | none => none
  | some fs =>
    let fs_path := get_fs_path base_path fs
    let (result, f) := fs.file_system.get_file fs_path
    if result > 0 then some (-result, content, content.length)
    else
      let buf := content ++ List.replicate (f.size + 1 - content.length) 0
      let r := fs.file_system.read fs_path f.size 0
      if r.code > 0 then some (-r.code, buf, buf.length)
      else
        let buf := (writeAt buf r.data).set r.read 0
        some (((r.read : Nat) : Int), buf, r.read)

/-- The running-total loop of `vfs::entries` (vfs.cpp). -/
def entriesTotalSize (files : List File) : Nat :=
  files.foldl (fun acc f => acc + (sizeof_directory_entry + f.file_name.length)) 0

/-- The byte trace of the write loop of `vfs::entries` (vfs.cpp): per file a
`directory_entry` header (`offset_next`, `type = 0`, `length`) followed by
the name bytes and a NUL; `offset_next` is `len(name) + 1 + 3 * 8` for every
entry but the last, whose `offset_next` is `0`. -/
def serializeEntries : List File → List Nat
  | [] => []
  | f :: rest =>
    encodeWord (if rest.isEmpty then 0 else f.file_name.length + 1 + 3 * 8) ++
    encodeWord 0 ++
    encodeWord f.file_name.length ++
    f.file_name ++ [0] ++
    serializeEntries rest

/-- `vfs::entries` (vfs.cpp): resolve the descriptor, `ls` the backend-local
path, check the buffer size against the running total, and emit the entry
records.  Returns the status word and the byte trace written to the caller
buffer. -/
def vfs_entries (reg : List MountedFs) (table : List Path) (fd : Nat)
    (size : Nat) : Option (Int × List Nat) :=
  match table.get? fd with
  | none => some (-ERROR_INVALID_FILE_DESCRIPTOR, [])
  | some base_path =>
    match get_fs reg base_path with
    | none => none
    | some fs =>
      let (result, files) := fs.file_system.ls (get_fs_path base_path fs)
      if result > 0 then some (-result, [])
      else
        let total_size := entriesTotalSize files
        if size < total_size then some (-ERROR_BUFFER_SMALL, [])
        else some (((total_size : Nat) : Int), serializeEntries files)

/-- The per-mount record size of `vfs::mounts` (vfs.cpp):
`4 * sizeof(size_t) + 3 + len(device) + len(mount_point) +
len(fs_type_string)`. -/
def mountRecordSize (mp : MountedFs) : Nat :=
  4 * 8 + 3 + mp.device.length + mp.mount_point.length +
    (partition_type_to_string mp.fs_type).length

/-- The running-total loop of `vfs::mounts` (vfs.cpp). -/
def mountsTotalSize (reg : List MountedFs) : Nat :=
  reg.foldl (fun acc mp => acc + mountRecordSize mp) 0

/-- The byte trace of the write loop of `vfs::mounts` (vfs.cpp): per mount a
`mount_point` header (`offset_next`, `length_mp`, `length_dev`,
`length_type`) followed by the three NUL-terminated strings in the order
mount_point, device, fs_type. -/
def serializeMounts : List MountedFs → List Nat
  | [] => []
  | mp :: rest =>
    let fs_type := partition_type_to_string mp.fs_type
    encodeWord (if rest.isEmpty then 0 else mountRecordSize mp) ++
    encodeWord mp.mount_point.length ++
    encodeWord mp.device.length ++
    encodeWord fs_type.length ++
    mp.mount_point ++ [0] ++
    mp.device ++ [0] ++
    fs_type ++ [0] ++
    serializeMounts rest

/-- `vfs::mounts` (vfs.cpp): check the buffer size against the running total
and emit one record per registry entry.  Returns the status word and the byte
trace written to the caller buffer. -/
def vfs_mounts (reg : List MountedFs) (size : Nat) : Int × List Nat :=
  let total_size := mountsTotalSize reg
  if size < total_size then (-ERROR_BUFFER_SMALL, [])
  else (((total_size : Nat) : Int), serializeMounts reg)

/-! ## Spec-modelled user-space readers of the on-wire layouts -/

/-- Modelled from the spec: read a little-endian `size_word` from the first
eight bytes of a buffer (§6 on-wire layouts). -/
def readWord : List Nat → Nat
  | b0 :: b1 :: b2 :: b3 :: b4 :: b5 :: b6 :: b7 :: _ =>
    b0 + 256 * b1 + 256 ^ 2 * b2 + 256 ^ 3 * b3 + 256 ^ 4 * b4 +
    256 ^ 5 * b5 + 256 ^ 6 * b6 + 256 ^ 7 * b7
  | _ => 0

/-- Modelled from the spec: read a NUL-terminated string. -/
def readCStr (bs : List Nat) : List Nat :=
  bs.takeWhile (· ≠ 0)

/-- Modelled from the spec: the user-space reader of the DirectoryEntry
on-wire layout (§6): from the current entry read `offset_next`, `length` (at
byte offset 16) and `length` name bytes (from byte offset 24), then advance
by `offset_next` bytes; a zero `offset_next` terminates.  Fueled by the entry
count. -/
def parseDirEntries : Nat → List Nat → List (Nat × Nat × List Nat)
  | 0, _ => []
  | fuel + 1, bs =>
    let off := readWord bs
    let len := readWord (bs.drop 16)
    let name := (bs.drop 24).take len
    if off = 0 then [(off, len, name)]
    else (off, len, name) :: parseDirEntries fuel (bs.drop off)

/-- The DirectoryEntry records the claim expects: `offset_next` is
`len(file_name) + 1 + 3 * 8` for non-last entries and `0` for the last,
`length` is the name length, followed by the name bytes. -/
def expectedDirEntries : List File → List (Nat × Nat × List Nat)
  | [] => []
  | f :: rest =>
    ((if rest.isEmpty then 0 else f.file_name.length + 1 + 3 * 8),
      f.file_name.length, f.file_name) :: expectedDirEntries rest

/-- Modelled from the spec: the user-space reader of the MountPoint on-wire
layout (§6): from the current record read `offset_next`, then from byte
offset 32 three NUL-terminated strings in the order mount_point, device,
fs_type; advance by `offset_next`; a zero `offset_next` terminates.  Fueled
by the record count. -/
def parseMounts : Nat → List Nat → List (bstr × bstr × bstr)
  | 0, _ => []
  | fuel + 1, bs =>
    let off := readWord bs
    let strs := bs.drop 32
    let mp := readCStr strs
    let strs2 := strs.drop (mp.length + 1)
    let dev := readCStr strs2
    let strs3 := strs2.drop (dev.length + 1)
    let ty := readCStr strs3
    if off = 0 then [(mp, dev, ty)]
    else (mp, dev, ty) :: parseMounts fuel (bs.drop off)

/-! ## Concrete instances used by witnesses and counterexamples -/

/-- A trivial backend instance for concrete registry states whose backend
behavior is irrelevant. -/
def dummyFs : FileSystem :=
  { get_file := fun _ => (0, ⟨[], 0, false, false, false, 0, 0, 0⟩)
    touch := fun _ => 0
    mkdir := fun _ => 0
    rm := fun _ => 0
    read := fun _ _ _ => ⟨0, 0, []⟩
    write := fun _ _ _ _ => (0, 0)
    ls := fun _ => (0, [])
    statfs := 0 }

/-! ## Helper lemmas -/

theorem length_encodeWord (n : Nat) : (encodeWord n).length = 8 := rfl

theorem readWord_encodeWord (n : Nat) (rest : List Nat) (h : n < 2 ^ 64) :
    readWord (encodeWord n ++ rest) = n := by
  simp only [encodeWord, List.cons_append, List.nil_append, readWord]
  omega

theorem truncMatch_nil_right (as : List bstr) : truncMatch as [] = true := by
  cases as <;> rfl

theorem prefix_imp_truncMatch {as bs : List bstr} (h : as <+: bs) :
    truncMatch as bs = true := by
  induction as generalizing bs with
  | nil => rfl
  | cons a as ih =>
    obtain ⟨t, rfl⟩ := h
    simpa [truncMatch] using ih ⟨t, rfl⟩

theorem prefix_of_truncMatch {as bs : List bstr}
    (hlen : as.length ≤ bs.length) (h : truncMatch as bs = true) :
    as <+: bs := by
  induction as generalizing bs with
  | nil => exact List.nil_prefix
  | cons a as ih =>
    cases bs with
    | nil => simp at hlen
    | cons b bs =>
      simp only [truncMatch, Bool.and_eq_true, beq_iff_eq] at h
      obtain ⟨rfl, h2⟩ := h
      simp only [List.length_cons, Nat.add_le_add_iff_right] at hlen
      exact (List.cons_prefix_cons).mpr ⟨rfl, ih hlen h2⟩

/-- The scan loop of `get_fs`, specified: either no entry improved on `best`
(the loop returns the incoming `best_match` and every matching entry's
segment count is at most `best`), or the result indexes a matching entry of
maximal segment count. -/
theorem scanAux_spec (segs : List bstr) :
    ∀ (ms : List MountedFs) (i best bm : Nat),
      (scanAux segs ms i best bm = bm ∧
        ∀ m ∈ ms, truncMatch m.mp_vec segs = true → m.mp_vec.length ≤ best) ∨
      (∃ k m, k < ms.length ∧ scanAux segs ms i best bm = i + k ∧
        ms.get? k = some m ∧ truncMatch m.mp_vec segs = true ∧
        best < m.mp_vec.length ∧
        ∀ m' ∈ ms, truncMatch m'.mp_vec segs = true →
          m'.mp_vec.length ≤ m.mp_vec.length) := by
  intro ms
  induction ms with
  | nil =>
    intro i best bm
    left
    exact ⟨rfl, by simp⟩
  | cons m ms ih =>
    intro i best bm
    by_cases hc : truncMatch m.mp_vec segs = true ∧ best < m.mp_vec.length
    · simp only [scanAux, if_pos hc]
      rcases ih (i + 1) m.mp_vec.length i with ⟨heq, hbound⟩ |
        ⟨k, m'', hk, heq, hget, hm, hlt, hmax⟩
      · right
        refine ⟨0, m, by simp, by simpa using heq, rfl, hc.1, hc.2, ?_⟩
        intro m' hm' hmatch
        rcases List.mem_cons.mp hm' with rfl | hmem
        · exact Nat.le_refl _
        · exact hbound _ hmem hmatch
      · right
        refine ⟨k + 1, m'', by simpa using Nat.succ_lt_succ hk,
          by rw [heq]; omega, by simpa using hget, hm,
          Nat.lt_trans hc.2 hlt, ?_⟩
        intro m' hm' hmatch
        rcases List.mem_cons.mp hm' with rfl | hmem
        · exact Nat.le_of_lt hlt
        · exact hmax _ hmem hmatch
    · simp only [scanAux, if_neg hc]
      push_neg at hc
      rcases ih (i + 1) best bm with ⟨heq, hbound⟩ |
        ⟨k, m'', hk, heq, hget, hm, hlt, hmax⟩
      · left
        refine ⟨heq, ?_⟩
        intro m' hm' hmatch
        rcases List.mem_cons.mp hm' with rfl | hmem
        · exact hc hmatch
        · exact hbound _ hmem hmatch
      · right
        refine ⟨k + 1, m'', by simpa using Nat.succ_lt_succ hk,
          by rw [heq]; omega, by simpa using hget, hm, hlt, ?_⟩
        intro m' hm' hmatch
        rcases List.mem_cons.mp hm' with rfl | hmem
        · exact Nat.le_of_lt (Nat.lt_of_le_of_lt (hc hmatch) hlt)
        · exact hmax _ hmem hmatch

theorem get_fs_cons_root (r : MountedFs) (rest : List MountedFs) (B : Path)
    (hr : r.mp_vec = []) (hB : B.is_root = true) :
    get_fs (r :: rest) B = some r := by
  simp [get_fs, hB, List.find?, hr]

theorem get_fs_of_not_root {reg : List MountedFs} {B : Path}
    (hB : B.is_root = false) :
    get_fs reg B = reg.get? (scanAux B.segments reg 0 0 0) := by
  simp [get_fs, hB]

/-- Registry and path exhibiting the truncated prefix comparison of
`get_fs`: a root mount followed by a mount at segments `["a", "b"]`. -/
def trcReg : List MountedFs :=
  [mkMountedFs .FAT32 [110] [47] dummyFs,
   mkMountedFs .FAT32 [110] [47, 97, 47, 98, 47] dummyFs]

/-- The rooted absolute path `/a`. -/
def trcPath : Path := ⟨true, [[97]]⟩

/-! ## Claims -/

/-- C1: for a rooted absolute path `B` over a registry whose first entry is
the root mount and in which every mount's segment count is at most
`len(B.segments)`, `get_fs` selects a mount whose `segments` is a prefix of
`B.segments` of maximal length among all mounts with that property, and when
only empty-segment mounts have it, the root (first) mount is selected. -/
theorem c1_longest_prefix_selection (reg : List MountedFs) (B : Path)
    (hrooted : B.rooted = true)
    (hfirst : reg.head?.map (fun m => m.mp_vec) = some [])
    (hlen : ∀ m ∈ reg, m.mp_vec.length ≤ B.segments.length) :
    ∃ m, get_fs reg B = some m ∧ m ∈ reg ∧
      m.mp_vec <+: B.segments ∧
      (∀ m' ∈ reg, m'.mp_vec <+: B.segments →
        m'.mp_vec.length ≤ m.mp_vec.length) ∧
      ((∀ m' ∈ reg, m'.mp_vec <+: B.segments → m'.mp_vec = []) →
        get_fs reg B = reg.head?) := by
  cases reg with
  | nil => simp at hfirst
  | cons r rest =>
    have hr : r.mp_vec = [] := by simpa using hfirst
    by_cases hroot : B.is_root = true
    · have hseg : B.segments = [] := by
        have := hroot
        simp only [Path.is_root, Bool.and_eq_true, List.isEmpty_iff] at this
        exact this.2
      refine ⟨r, get_fs_cons_root r rest B hr hroot, List.mem_cons_self r rest,
        by simp [hr], ?_, ?_⟩
      · intro m' hm' _
        have := hlen m' hm'
        simp [hseg] at this
        simp [hr, this]
      · intro _
        rw [get_fs_cons_root r rest B hr hroot]
        rfl
    · have hroot' : B.is_root = false := by
        cases h : B.is_root
        · rfl
        · exact absurd h hroot
      rw [get_fs_of_not_root hroot']
      rcases scanAux_spec B.segments (r :: rest) 0 0 0 with
        ⟨heq, hbound⟩ | ⟨k, m, hk, heq, hget, hm, hlt, hmax⟩
      · refine ⟨r, by simp [heq], List.mem_cons_self r rest, by simp [hr],
          ?_, ?_⟩
        · intro m' hm' hpre
          have h0 := hbound m' hm' (prefix_imp_truncMatch hpre)
          simpa [hr] using h0
        · intro _
          simp [heq]
      · refine ⟨m, by rw [heq]; simpa using hget, List.get?_mem hget,
          prefix_of_truncMatch (hlen m (List.get?_mem hget)) hm, ?_, ?_⟩
        · intro m' hm' hpre
          exact hmax m' hm' (prefix_imp_truncMatch hpre)
        · intro hall
          have hmem := List.get?_mem hget
          have hpre := prefix_of_truncMatch (hlen m hmem) hm
          have h0 := hall m hmem hpre
          rw [h0] at hlt
          simp at hlt

/-- Witness for C1: with the registry `[/ (root), /sys/]` and the path
`/sys/foo`, the sysfs mount (segments `["sys"]`) is selected. -/
theorem c1_longest_prefix_selection_witness :
    ∃ m, get_fs [mkMountedFs .FAT32 [110] [47] dummyFs,
        mkMountedFs .SYSFS [110] [47, 115, 121, 115, 47] dummyFs]
        ⟨true, [[115, 121, 115], [102, 111, 111]]⟩ = some m ∧
      m ∈ [mkMountedFs .FAT32 [110] [47] dummyFs,
        mkMountedFs .SYSFS [110] [47, 115, 121, 115, 47] dummyFs] ∧
      m.mp_vec <+: [[115, 121, 115], [102, 111, 111]] ∧
      (∀ m' ∈ [mkMountedFs .FAT32 [110] [47] dummyFs,
          mkMountedFs .SYSFS [110] [47, 115, 121, 115, 47] dummyFs],
        m'.mp_vec <+: [[115, 121, 115], [102, 111, 111]] →
          m'.mp_vec.length ≤ m.mp_vec.length) ∧
      ((∀ m' ∈ [mkMountedFs .FAT32 [110] [47] dummyFs,
          mkMountedFs .SYSFS [110] [47, 115, 121, 115, 47] dummyFs],
        m'.mp_vec <+: [[115, 121, 115], [102, 111, 111]] → m'.mp_vec = []) →
        get_fs [mkMountedFs .FAT32 [110] [47] dummyFs,
          mkMountedFs .SYSFS [110] [47, 115, 121, 115, 47] dummyFs]
          ⟨true, [[115, 121, 115], [102, 111, 111]]⟩ =
          [mkMountedFs .FAT32 [110] [47] dummyFs,
            mkMountedFs .SYSFS [110] [47, 115, 121, 115, 47] dummyFs].head?) :=
  c1_longest_prefix_selection _ _ rfl rfl (by decide)

/-- Counterexample to C1 as stated: in the registry `[/ (root), /a/b/]`, for
the rooted path `/a` the only mount whose segments are a prefix of `B` (with
length at most `len(B)`) is the root mount, yet `get_fs` selects the
`["a", "b"]` mount — its comparison loop only checks the first `len(B)`
segments. -/
theorem c1_counterexample :
    trcReg.head?.map (fun m => m.mp_vec) = some [] ∧
    (∀ m ∈ trcReg, m.mp_vec <+: trcPath.segments → m.mp_vec = []) ∧
    (get_fs trcReg trcPath).map (fun m => m.mp_vec) = some [[97], [98]] := by
  refine ⟨rfl, by decide, rfl⟩

/-- C2 (amended): for a registry whose first entry is the root mount, when
the mount `m` selected for `B` satisfies
`len(m.segments) ≤ len(B.segments)`, the segments of `B` are `m.segments`
followed by the backend-local path's segments, and the backend-local path is
empty exactly when `B` is the mount's own root. -/
theorem c2_backend_local_decomposition (reg : List MountedFs) (B : Path)
    (m : MountedFs)
    (hfirst : reg.head?.map (fun mm => mm.mp_vec) = some [])
    (hsel : get_fs reg B = some m)
    (hmlen : m.mp_vec.length ≤ B.segments.length) :
    B.segments = m.mp_vec ++ (get_fs_path B m).segments ∧
    ((get_fs_path B m).segments = [] ↔ B.segments = m.mp_vec) := by
  have hpre : m.mp_vec <+: B.segments := by
    cases reg with
    | nil => simp at hfirst
    | cons r rest =>
      have hr : r.mp_vec = [] := by simpa using hfirst
      by_cases hroot : B.is_root = true
      · rw [get_fs_cons_root r rest B hr hroot] at hsel
        obtain rfl : r = m := by simpa using hsel
        simp [hr]
      · have hroot' : B.is_root = false := by
          cases h : B.is_root
          · rfl
          · exact absurd h hroot
        rw [get_fs_of_not_root hroot'] at hsel
        rcases scanAux_spec B.segments (r :: rest) 0 0 0 with
          ⟨heq, _⟩ | ⟨k, m'', _, heq, hget, hm, _, _⟩
        · rw [heq] at hsel
          obtain rfl : r = m := by simpa using hsel
          simp [hr]
        · rw [heq] at hsel
          have : some m'' = some m := by
            rw [← hsel, ← hget]
            simp
          obtain rfl : m'' = m := by simpa using this
          exact prefix_of_truncMatch hmlen hm
  obtain ⟨t, ht⟩ := hpre
  have hdecomp : B.segments = m.mp_vec ++ (get_fs_path B m).segments := by
    rw [get_fs_path, Path.sub_path, ← ht]
    simp
  refine ⟨hdecomp, ?_, ?_⟩
  · intro hloc
    rw [hdecomp, hloc, List.append_nil]
  · intro hBseg
    simp [get_fs_path, Path.sub_path, hBseg]

/-- Witness for C2: registry `[/ (root), /sys/]`, path `/sys/foo`, selected
mount `/sys/`: `["sys", "foo"] = ["sys"] ++ ["foo"]`. -/
theorem c2_backend_local_decomposition_witness :
    (⟨true, [[115, 121, 115], [102, 111, 111]]⟩ : Path).segments =
      (mkMountedFs .SYSFS [110] [47, 115, 121, 115, 47] dummyFs).mp_vec ++
      (get_fs_path ⟨true, [[115, 121, 115], [102, 111, 111]]⟩
        (mkMountedFs .SYSFS [110] [47, 115, 121, 115, 47] dummyFs)).segments ∧
    ((get_fs_path ⟨true, [[115, 121, 115], [102, 111, 111]]⟩
        (mkMountedFs .SYSFS [110] [47, 115, 121, 115, 47] dummyFs)).segments = [] ↔
      (⟨true, [[115, 121, 115], [102, 111, 111]]⟩ : Path).segments =
        (mkMountedFs .SYSFS [110] [47, 115, 121, 115, 47] dummyFs).mp_vec) :=
  c2_backend_local_decomposition
    [mkMountedFs .FAT32 [110] [47] dummyFs,
     mkMountedFs .SYSFS [110] [47, 115, 121, 115, 47] dummyFs]
    ⟨true, [[115, 121, 115], [102, 111, 111]]⟩
    (mkMountedFs .SYSFS [110] [47, 115, 121, 115, 47] dummyFs)
    rfl rfl (by decide)

/-- Counterexample to C2 as stated: in the registry `[/ (root), /a/b/]`, the
mount selected for `/a` has segments `["a", "b"]`, and
`m.segments ++ backend_local(B, m) = ["a", "b"] ≠ ["a"] = B.segments`. -/
theorem c2_counterexample :
    (get_fs trcReg trcPath).map
      (fun m => m.mp_vec ++ (get_fs_path trcPath m).segments) =
      some [[97], [98]] ∧
    trcPath.segments = [[97]] ∧
    ([[97], [98]] : List bstr) ≠ [[97]] :=
  ⟨rfl, rfl, by decide⟩

/-! ## Join/split lemmas for the mount claims -/

/-- A well-formed path segment: non-empty and free of `'/'` (the spec's Path
invariant). -/
def wfSeg (s : bstr) : Prop := s ≠ [] ∧ 47 ∉ s

theorem splitSlashAux_seg (seg : List Nat) :
    ∀ (rest cur : List Nat), 47 ∉ seg →
      splitSlashAux (seg ++ rest) cur = splitSlashAux rest (seg.reverse ++ cur) := by
  induction seg with
  | nil => intro rest cur _; rfl
  | cons c cs ih =>
    intro rest cur hna
    have hc : ¬ c = 47 := fun h => hna (h ▸ List.mem_cons_self c cs)
    simp only [List.cons_append, splitSlashAux, if_neg hc, List.append_eq]
    rw [ih rest (c :: cur) (fun h => hna (List.mem_cons_of_mem _ h))]
    simp

theorem splitSlashAux_flatMap (segs : List bstr)
    (h : ∀ s ∈ segs, wfSeg s) :
    splitSlashAux (segs.flatMap (fun s => s ++ [47])) [] = segs := by
  induction segs with
  | nil => rfl
  | cons s ss ih =>
    obtain ⟨hne, hns⟩ := h s (List.mem_cons_self s ss)
    rw [List.flatMap_cons, List.append_assoc,
      splitSlashAux_seg s ([47] ++ ss.flatMap (fun s => s ++ [47])) [] hns]
    simp [splitSlashAux, hne, ih (fun t ht => h t (List.mem_cons_of_mem s ht))]

/-- Splitting the `/`-joined form of a well-formed segment list recovers the
segments. -/
theorem splitSlash_joinSegs (segs : List bstr)
    (h : ∀ s ∈ segs, wfSeg s) :
    splitSlash (joinSegs segs) = segs := by
  have : splitSlash (joinSegs segs) =
      splitSlashAux (segs.flatMap (fun s => s ++ [47])) [] := by
    simp [splitSlash, joinSegs, splitSlashAux]
  rw [this, splitSlashAux_flatMap segs h]

/-- The join is injective on well-formed segment lists. -/
theorem joinSegs_injOn {a b : List bstr}
    (ha : ∀ s ∈ a, wfSeg s) (hb : ∀ s ∈ b, wfSeg s)
    (h : joinSegs a = joinSegs b) : a = b := by
  have := congrArg splitSlash h
  rwa [splitSlash_joinSegs a ha, splitSlash_joinSegs b hb] at this

/-- A registry entry whose `mount_point` is the canonical `/`-joined form of
its well-formed segment vector. -/
def canonicalEntry (m : MountedFs) : Prop :=
  m.mount_point = joinSegs m.mp_vec ∧ ∀ s ∈ m.mp_vec, wfSeg s

/-- Every entry of the registry is canonical. -/
def canonicalReg (reg : List MountedFs) : Prop :=
  ∀ m ∈ reg, canonicalEntry m

/-- No two live registry entries have identical segment vectors
(invariant (b)). -/
def distinctSegs (reg : List MountedFs) : Prop :=
  reg.Pairwise (fun a b => a.mp_vec ≠ b.mp_vec)

instance (s : bstr) : Decidable (wfSeg s) := by
  unfold wfSeg
  infer_instance

instance (m : MountedFs) : Decidable (canonicalEntry m) := by
  unfold canonicalEntry
  infer_instance

instance (reg : List MountedFs) : Decidable (canonicalReg reg) := by
  unfold canonicalReg
  infer_instance

instance (reg : List MountedFs) : Decidable (distinctSegs reg) := by
  unfold distinctSegs
  infer_instance

/-- C5 (amended): the fd form of `mount` preserves canonicality and the
distinct-segments invariant, and returns `-ALREADY_MOUNTED` with the
registry unchanged when the joined mount-point string duplicates a live
entry.  (The raw-string form performs no duplicate check; see the
counterexample.) -/
theorem c5_fd_mount_invariant
    (mk : PartitionType → bstr → bstr → FileSystem)
    (handles : Nat → Option Path) (reg : List MountedFs)
    (type : PartitionType) (mp_fd dev_fd : Nat)
    (hcanon : canonicalReg reg) (hdist : distinctSegs reg)
    (hwf : ∀ fd p, handles fd = some p → ∀ s ∈ p.segments, wfSeg s) :
    (canonicalReg (vfs_mount_fd mk handles reg type mp_fd dev_fd).2 ∧
      distinctSegs (vfs_mount_fd mk handles reg type mp_fd dev_fd).2) ∧
    (∀ mp_path, handles mp_fd = some mp_path → handles dev_fd ≠ none →
      (∃ m ∈ reg, m.mount_point = joinSegs mp_path.segments) →
      vfs_mount_fd mk handles reg type mp_fd dev_fd =
        (-ERROR_ALREADY_MOUNTED, reg)) := by
  cases h1 : handles mp_fd with
  | none =>
    refine ⟨by simp [vfs_mount_fd, h1, hcanon, hdist], ?_⟩
    intro mp_path hmp
    exact absurd hmp (by simp)
  | some mp_path =>
    cases h2 : handles dev_fd with
    | none =>
      refine ⟨by simp [vfs_mount_fd, h1, h2, hcanon, hdist], ?_⟩
      intro mp_path' _ hdev
      exact absurd rfl hdev
    | some dev_path =>
      have hwfmp : ∀ s ∈ mp_path.segments, wfSeg s := hwf mp_fd mp_path h1
      by_cases hdup :
        reg.any (fun m => m.mount_point == joinSegs mp_path.segments) = true
      · have hres : vfs_mount_fd mk handles reg type mp_fd dev_fd =
            (-ERROR_ALREADY_MOUNTED, reg) := by
          simp only [vfs_mount_fd, h1, h2]
          rw [if_pos hdup]
        refine ⟨by rw [hres]; exact ⟨hcanon, hdist⟩, ?_⟩
        intro mp_path' hmp' _ _
        obtain rfl : mp_path = mp_path' := by simpa using hmp'
        exact hres
      · have hnodup : ∀ m ∈ reg, m.mount_point ≠ joinSegs mp_path.segments := by
          intro m hm
          simp only [List.any_eq_true, beq_iff_eq, not_exists] at hdup
          push_neg at hdup
          exact hdup m hm
        refine ⟨?_, ?_⟩
        · cases hfs : get_new_fs mk type (joinSegs mp_path.segments)
            (joinSegs dev_path.segments) with
          | none =>
            have : vfs_mount_fd mk handles reg type mp_fd dev_fd =
                (-ERROR_INVALID_FILE_SYSTEM, reg) := by
              simp only [vfs_mount_fd, h1, h2]
              rw [if_neg (by simp [hdup]), hfs]
            rw [this]
            exact ⟨hcanon, hdist⟩
          | some fs =>
            have hres : vfs_mount_fd mk handles reg type mp_fd dev_fd =
                (0, reg ++ [mkMountedFs type (joinSegs dev_path.segments)
                  (joinSegs mp_path.segments) fs]) := by
              simp only [vfs_mount_fd, h1, h2]
              rw [if_neg (by simp [hdup]), hfs]
            have hnewseg : (mkMountedFs type (joinSegs dev_path.segments)
                (joinSegs mp_path.segments) fs).mp_vec = mp_path.segments := by
              simp [mkMountedFs, splitSlash_joinSegs mp_path.segments hwfmp]
            have hA : canonicalReg (reg ++ [mkMountedFs type
                (joinSegs dev_path.segments) (joinSegs mp_path.segments) fs]) := by
              intro m hm
              rcases List.mem_append.mp hm with hmem | hmem
              · exact hcanon m hmem
              · obtain rfl : m = mkMountedFs type (joinSegs dev_path.segments)
                    (joinSegs mp_path.segments) fs := by simpa using hmem
                refine ⟨?_, ?_⟩
                · rw [hnewseg]
                  rfl
                · rw [hnewseg]
                  exact hwfmp
            have hB : distinctSegs (reg ++ [mkMountedFs type
                (joinSegs dev_path.segments) (joinSegs mp_path.segments) fs]) := by
              unfold distinctSegs
              rw [List.pairwise_append]
              refine ⟨hdist, List.pairwise_singleton _ _, ?_⟩
              intro a ha b hb
              obtain rfl : b = mkMountedFs type (joinSegs dev_path.segments)
                  (joinSegs mp_path.segments) fs := by simpa using hb
              rw [hnewseg]
              intro hae
              exact hnodup a ha (by rw [(hcanon a ha).1, hae])
            rw [hres]
            exact ⟨hA, hB⟩
        · intro mp_path' hmp' _ hex
          obtain rfl : mp_path = mp_path' := by simpa using hmp'
          obtain ⟨m, hm, hmeq⟩ := hex
          exact absurd hmeq (hnodup m hm)

/-- The registry produced by mounting `/sys/` twice through the raw-string
form of `mount`, starting from the empty registry. -/
def rawTwiceReg : List MountedFs :=
  (vfs_mount_raw (fun _ _ _ => dummyFs)
    (vfs_mount_raw (fun _ _ _ => dummyFs) [] .SYSFS
      [47, 115, 121, 115, 47] [110]).2
    .SYSFS [47, 115, 121, 115, 47] [110]).2

/-- Counterexample to C5 as stated: the raw-string form of `mount` performs
no duplicate check, so mounting `/sys/` twice succeeds both times and leaves
two live entries with identical segment vectors `["sys"]`. -/
theorem c5_counterexample :
    (vfs_mount_raw (fun _ _ _ => dummyFs)
      (vfs_mount_raw (fun _ _ _ => dummyFs) [] .SYSFS
        [47, 115, 121, 115, 47] [110]).2
      .SYSFS [47, 115, 121, 115, 47] [110]).1 = 0 ∧
    rawTwiceReg.map (fun m => m.mp_vec) =
      [[[115, 121, 115]], [[115, 121, 115]]] ∧
    ¬ distinctSegs rawTwiceReg := by
  refine ⟨rfl, rfl, ?_⟩
  intro h
  unfold distinctSegs at h
  rw [show rawTwiceReg =
      [mkMountedFs .SYSFS [110] [47, 115, 121, 115, 47] dummyFs,
       mkMountedFs .SYSFS [110] [47, 115, 121, 115, 47] dummyFs] from rfl,
    List.pairwise_cons] at h
  exact h.1 _ (List.mem_cons_self _ _) rfl

/-- Witness for C5: with the singleton registry holding the root mount `/`
and both descriptors resolving to the global root path, the fd mount of a
FAT32 filesystem at `/` is rejected with `-ALREADY_MOUNTED` and the
invariants persist. -/
theorem c5_fd_mount_invariant_witness :
    (canonicalReg (vfs_mount_fd (fun _ _ _ => dummyFs)
        (fun _ => some ⟨true, []⟩)
        [mkMountedFs .FAT32 [110] [47] dummyFs] .FAT32 0 1).2 ∧
      distinctSegs (vfs_mount_fd (fun _ _ _ => dummyFs)
        (fun _ => some ⟨true, []⟩)
        [mkMountedFs .FAT32 [110] [47] dummyFs] .FAT32 0 1).2) ∧
    (∀ mp_path, (fun (_ : Nat) => some (⟨true, []⟩ : Path)) 0 = some mp_path →
      (fun (_ : Nat) => some (⟨true, []⟩ : Path)) 1 ≠ none →
      (∃ m ∈ [mkMountedFs .FAT32 [110] [47] dummyFs],
        m.mount_point = joinSegs mp_path.segments) →
      vfs_mount_fd (fun _ _ _ => dummyFs) (fun _ => some ⟨true, []⟩)
        [mkMountedFs .FAT32 [110] [47] dummyFs] .FAT32 0 1 =
        (-ERROR_ALREADY_MOUNTED, [mkMountedFs .FAT32 [110] [47] dummyFs])) :=
  c5_fd_mount_invariant (fun _ _ _ => dummyFs) (fun _ => some ⟨true, []⟩)
    [mkMountedFs .FAT32 [110] [47] dummyFs] .FAT32 0 1
    (by decide) (by decide)
    (fun fd p hp => by
      obtain rfl : (⟨true, []⟩ : Path) = p := by simpa using hp
      intro s hs
      simp at hs)

/-- C10: in the fd form of `mount`, the duplicate-mount-point check precedes
backend construction: a duplicate joined mount point yields
`-ALREADY_MOUNTED` for every partition type (including `UNKNOWN`), and
`-INVALID_FILE_SYSTEM` is returned only when the mount point is not a
duplicate. -/
theorem c10_duplicate_check_precedes_construction
    (mk : PartitionType → bstr → bstr → FileSystem)
    (handles : Nat → Option Path) (reg : List MountedFs)
    (type : PartitionType) (mp_fd dev_fd : Nat) (mp_path dev_path : Path)
    (h1 : handles mp_fd = some mp_path) (h2 : handles dev_fd = some dev_path) :
    ((∃ m ∈ reg, m.mount_point = joinSegs mp_path.segments) →
      vfs_mount_fd mk handles reg type mp_fd dev_fd =
        (-ERROR_ALREADY_MOUNTED, reg)) ∧
    ((vfs_mount_fd mk handles reg type mp_fd dev_fd).1 =
        -ERROR_INVALID_FILE_SYSTEM →
      ¬ ∃ m ∈ reg, m.mount_point = joinSegs mp_path.segments) := by
  constructor
  · intro hex
    have hdup : reg.any (fun m => m.mount_point == joinSegs mp_path.segments) =
        true := by
      rw [List.any_eq_true]
      obtain ⟨m, hm, hmeq⟩ := hex
      exact ⟨m, hm, by simpa using hmeq⟩
    simp only [vfs_mount_fd, h1, h2]
    rw [if_pos hdup]
  · intro hres hex
    have hdup : reg.any (fun m => m.mount_point == joinSegs mp_path.segments) =
        true := by
      rw [List.any_eq_true]
      obtain ⟨m, hm, hmeq⟩ := hex
      exact ⟨m, hm, by simpa using hmeq⟩
    simp only [vfs_mount_fd, h1, h2] at hres
    rw [if_pos hdup] at hres
    simp [ERROR_ALREADY_MOUNTED, ERROR_INVALID_FILE_SYSTEM] at hres

/-- Witness for C10: a duplicate mount point with partition type `UNKNOWN`
is rejected with `-ALREADY_MOUNTED`, not `-INVALID_FILE_SYSTEM`. -/
theorem c10_duplicate_check_precedes_construction_witness :
    ((∃ m ∈ [mkMountedFs .FAT32 [110] [47] dummyFs],
        m.mount_point = joinSegs (⟨true, []⟩ : Path).segments) →
      vfs_mount_fd (fun _ _ _ => dummyFs) (fun _ => some ⟨true, []⟩)
        [mkMountedFs .FAT32 [110] [47] dummyFs] .UNKNOWN 0 1 =
        (-ERROR_ALREADY_MOUNTED, [mkMountedFs .FAT32 [110] [47] dummyFs])) ∧
    ((vfs_mount_fd (fun _ _ _ => dummyFs) (fun _ => some ⟨true, []⟩)
        [mkMountedFs .FAT32 [110] [47] dummyFs] .UNKNOWN 0 1).1 =
        -ERROR_INVALID_FILE_SYSTEM →
      ¬ ∃ m ∈ [mkMountedFs .FAT32 [110] [47] dummyFs],
        m.mount_point = joinSegs (⟨true, []⟩ : Path).segments) :=
  c10_duplicate_check_precedes_construction (fun _ _ _ => dummyFs)
    (fun _ => some ⟨true, []⟩) [mkMountedFs .FAT32 [110] [47] dummyFs]
    .UNKNOWN 0 1 ⟨true, []⟩ ⟨true, []⟩ rfl rfl

/-- A backend whose file does not exist yet and whose `touch` succeeds. -/
def createFs : FileSystem :=
  { dummyFs with
    get_file := fun _ => (ERROR_NOT_EXISTS, ⟨[], 0, false, false, false, 0, 0, 0⟩)
    touch := fun _ => 0 }

/-- C6: for `open` with the CREATE flag on a path whose backend-local path is
non-empty, a `NOT_EXISTS` answer from `get_file` is absorbed by calling
`touch`, and a successful `touch` registers a fresh descriptor for the
absolute path; any other positive `get_file` error `e` is surfaced as `-e`
with no descriptor registered; and without the CREATE flag every positive
`get_file` error (including `NOT_EXISTS`) is surfaced. -/
theorem c6_open_create_absorbs_only_not_exists
    (reg : List MountedFs) (cwd : Path) (table : List Path) (p : bstr)
    (flags : Nat) (m : MountedFs)
    (hp : p ≠ [])
    (hsel : get_fs reg (get_path cwd p) = some m)
    (hnonempty : (get_fs_path (get_path cwd p) m).segments ≠ [])
    (hcreate : flags &&& OPEN_CREATE ≠ 0) :
    ((m.file_system.get_file (get_fs_path (get_path cwd p) m)).1 =
        ERROR_NOT_EXISTS →
      m.file_system.touch (get_fs_path (get_path cwd p) m) = 0 →
      vfs_open reg cwd table p flags =
        some (((table.length : Nat) : Int), table ++ [get_path cwd p])) ∧
    (∀ e : Int, 0 < e → e ≠ ERROR_NOT_EXISTS →
      (m.file_system.get_file (get_fs_path (get_path cwd p) m)).1 = e →
      vfs_open reg cwd table p flags = some (-e, table)) ∧
    (∀ flags2 : Nat, flags2 &&& OPEN_CREATE = 0 →
      ∀ e : Int, 0 < e →
      (m.file_system.get_file (get_fs_path (get_path cwd p) m)).1 = e →
      vfs_open reg cwd table p flags2 = some (-e, table)) := by
  have hpe : p.isEmpty = false := by
    cases p with
    | nil => exact absurd rfl hp
    | cons c cs => rfl
  have hroot : (get_fs_path (get_path cwd p) m).is_root = false := by
    unfold Path.is_root
    cases h : (get_fs_path (get_path cwd p) m).segments with
    | nil => exact absurd h hnonempty
    | cons s ss => simp [h]
  refine ⟨?_, ?_, ?_⟩
  · intro hg ht
    simp only [vfs_open, hpe, Bool.false_eq_true, if_false, hsel, hroot,
      hcreate, if_true, ne_eq, not_false_eq_true, if_pos, hg, ht]
    norm_num
  · intro e he hne hg
    simp only [vfs_open, hpe, Bool.false_eq_true, if_false, hsel, hroot,
      hcreate, ne_eq, not_false_eq_true, if_true, hg, if_neg hne]
    rw [if_pos he]
  · intro flags2 hnc e he hg
    have hnc' : ¬ flags2 &&& OPEN_CREATE ≠ 0 := by simp [hnc]
    simp only [vfs_open, hpe, Bool.false_eq_true, if_false, hsel, hroot,
      if_neg hnc', hg]
    rw [if_pos he]

/-- The root mount entry backed by `createFs`. -/
def createMount : MountedFs := mkMountedFs .FAT32 [110] [47] createFs

/-- The global root path. -/
def rootPath : Path := ⟨true, []⟩

/-- The byte string `"/f"`. -/
def slashF : bstr := [47, 102]

/-- Witness for C6: opening `/f` with CREATE over a root-mounted backend
whose `get_file` answers `NOT_EXISTS` and whose `touch` succeeds registers
descriptor 0. -/
theorem c6_open_create_absorbs_only_not_exists_witness :
    ((createMount.file_system.get_file
        (get_fs_path (get_path rootPath slashF) createMount)).1 =
          ERROR_NOT_EXISTS →
      createMount.file_system.touch
        (get_fs_path (get_path rootPath slashF) createMount) = 0 →
      vfs_open [createMount] rootPath [] slashF 1 =
        some (((([] : List Path).length : Nat) : Int),
          [] ++ [get_path rootPath slashF])) ∧
    (∀ e : Int, 0 < e → e ≠ ERROR_NOT_EXISTS →
      (createMount.file_system.get_file
        (get_fs_path (get_path rootPath slashF) createMount)).1 = e →
      vfs_open [createMount] rootPath [] slashF 1 = some (-e, [])) ∧
    (∀ flags2 : Nat, flags2 &&& OPEN_CREATE = 0 →
      ∀ e : Int, 0 < e →
      (createMount.file_system.get_file
        (get_fs_path (get_path rootPath slashF) createMount)).1 = e →
      vfs_open [createMount] rootPath [] slashF flags2 = some (-e, [])) :=
  c6_open_create_absorbs_only_not_exists [createMount] rootPath [] slashF 1
    createMount (by decide) rfl (by decide) (by decide)

/-- C7 (amended): for a descriptor resolving to an empty backend-local path,
`stat` returns `0` and sets `size = 4096` and `flags = STAT_FLAG_DIRECTORY`
for every backend (so no backend `get_file` is consulted), while the
timestamp fields of the caller's `stat_info` are left unchanged — they are
not set to `0`. -/
theorem c7_stat_mount_root (reg : List MountedFs) (table : List Path)
    (fd : Nat) (info : StatInfo) (base : Path) (m : MountedFs)
    (hfd : table.get? fd = some base)
    (hsel : get_fs reg base = some m)
    (hempty : (get_fs_path base m).segments = []) :
    vfs_stat reg table fd info =
      some (0, ⟨4096, STAT_FLAG_DIRECTORY,
        info.created, info.modified, info.accessed⟩) := by
  have he : (get_fs_path base m).empty = true := by
    simp [Path.empty, hempty]
  simp only [vfs_stat, hfd, hsel, he, if_true, if_pos]

/-- Witness for C7: statting a descriptor for `/` over the root mount with a
caller `stat_info` of `⟨1, 2, 3, 4, 5⟩` yields
`(0, ⟨4096, DIRECTORY, 3, 4, 5⟩)`. -/
theorem c7_stat_mount_root_witness :
    vfs_stat [mkMountedFs .FAT32 [110] [47] dummyFs] [rootPath] 0
        ⟨1, 2, 3, 4, 5⟩ =
      some (0, ⟨4096, STAT_FLAG_DIRECTORY, 3, 4, 5⟩) :=
  c7_stat_mount_root [mkMountedFs .FAT32 [110] [47] dummyFs] [rootPath] 0
    ⟨1, 2, 3, 4, 5⟩ rootPath (mkMountedFs .FAT32 [110] [47] dummyFs)
    rfl rfl rfl

/-- Counterexample to C7 as stated: with a caller `stat_info` whose
timestamps are `7`, `stat` of a mount root succeeds with `size = 4096` and
the directory flag but leaves `created = 7`: the timestamps are not set to
`0` (vfs.cpp:322-329 writes only `size` and `flags`). -/
theorem c7_counterexample :
    (vfs_stat [mkMountedFs .FAT32 [110] [47] dummyFs] [rootPath] 0
        ⟨1, 2, 7, 7, 7⟩).map (fun r => (r.1, r.2.size, r.2.flags)) =
      some (0, 4096, STAT_FLAG_DIRECTORY) ∧
    (vfs_stat [mkMountedFs .FAT32 [110] [47] dummyFs] [rootPath] 0
        ⟨1, 2, 7, 7, 7⟩).map (fun r => r.2.created) ≠ some 0 :=
  ⟨rfl, by decide⟩

/-- A backend with recognizable `read` and `write` results, used to show the
backend is reached. -/
def probeFs : FileSystem :=
  { dummyFs with
    read := fun _ _ _ => ⟨0, 42, []⟩
    write := fun _ _ _ _ => (0, 7) }

/-- C8 (amended): `open`, `mkdir`, `rm` and `statfs` fail with
`-INVALID_FILE_PATH` on the empty string for every registry and backend
(hence without invoking any backend operation); `direct_read` and
`direct_write` perform no empty-string check: they resolve the empty string
to the working directory and invoke the backend `read`/`write`. -/
theorem c8_empty_path_guards (reg : List MountedFs) (cwd : Path)
    (table : List Path) (flags : Nat) (count offset : Nat) (data : bstr)
    (m : MountedFs) (hsel : get_fs reg (get_path cwd []) = some m) :
    vfs_open reg cwd table [] flags = some (-ERROR_INVALID_FILE_PATH, table) ∧
    vfs_mkdir reg cwd [] = some (-ERROR_INVALID_FILE_PATH) ∧
    vfs_rm reg cwd [] = some (-ERROR_INVALID_FILE_PATH) ∧
    vfs_statfs reg cwd [] = some (-ERROR_INVALID_FILE_PATH) ∧
    (get_path cwd []).segments = cwd.segments ∧
    (∃ r, m.file_system.read (get_fs_path (get_path cwd []) m) count offset = r ∧
      vfs_direct_read reg cwd [] count offset =
        some (if r.code > 0 then -r.code else ((r.read : Nat) : Int))) ∧
    (∃ c w, m.file_system.write (get_fs_path (get_path cwd []) m) data count
        offset = (c, w) ∧
      vfs_direct_write reg cwd [] data count offset =
        some (if c > 0 then -c else ((w : Nat) : Int))) := by
  refine ⟨rfl, rfl, rfl, rfl, by simp [get_path, splitSlash, splitSlashAux],
    ?_, ?_⟩
  · refine ⟨m.file_system.read (get_fs_path (get_path cwd []) m) count offset,
      rfl, ?_⟩
    simp only [vfs_direct_read, hsel]
    split <;> rfl
  · refine ⟨(m.file_system.write (get_fs_path (get_path cwd []) m) data count
      offset).1,
      (m.file_system.write (get_fs_path (get_path cwd []) m) data count
      offset).2, rfl, ?_⟩
    simp only [vfs_direct_write, hsel]
    split <;> rfl

/-- Witness for C8: over the probe backend mounted at `/` with CWD `/`, the
guarded operations reject the empty string while `direct_read` and
`direct_write` return the backend's answers (42 and 7). -/
theorem c8_empty_path_guards_witness :
    vfs_open [mkMountedFs .FAT32 [110] [47] probeFs] rootPath [] [] 0 =
      some (-ERROR_INVALID_FILE_PATH, []) ∧
    vfs_mkdir [mkMountedFs .FAT32 [110] [47] probeFs] rootPath [] =
      some (-ERROR_INVALID_FILE_PATH) ∧
    vfs_rm [mkMountedFs .FAT32 [110] [47] probeFs] rootPath [] =
      some (-ERROR_INVALID_FILE_PATH) ∧
    vfs_statfs [mkMountedFs .FAT32 [110] [47] probeFs] rootPath [] =
      some (-ERROR_INVALID_FILE_PATH) ∧
    (get_path rootPath []).segments = rootPath.segments ∧
    (∃ r, (mkMountedFs .FAT32 [110] [47] probeFs).file_system.read
        (get_fs_path (get_path rootPath [])
          (mkMountedFs .FAT32 [110] [47] probeFs)) 10 0 = r ∧
      vfs_direct_read [mkMountedFs .FAT32 [110] [47] probeFs] rootPath [] 10 0 =
        some (if r.code > 0 then -r.code else ((r.read : Nat) : Int))) ∧
    (∃ c w, (mkMountedFs .FAT32 [110] [47] probeFs).file_system.write
        (get_fs_path (get_path rootPath [])
          (mkMountedFs .FAT32 [110] [47] probeFs)) [1] 1 0 = (c, w) ∧
      vfs_direct_write [mkMountedFs .FAT32 [110] [47] probeFs] rootPath []
          [1] 1 0 =
        some (if c > 0 then -c else ((w : Nat) : Int))) :=
  c8_empty_path_guards [mkMountedFs .FAT32 [110] [47] probeFs] rootPath []
    0 10 0 [1] (mkMountedFs .FAT32 [110] [47] probeFs) rfl

/-- Counterexample to C8 as stated: `direct_read("")` over the probe backend
returns the backend's byte count 42 — not `-INVALID_FILE_PATH` — and
`direct_write("")` returns 7, so the empty-string guard is absent from
`direct_read` and `direct_write` (vfs.cpp:384-397, 447-460 have no empty
check). -/
theorem c8_counterexample :
    vfs_direct_read [mkMountedFs .FAT32 [110] [47] probeFs] rootPath [] 10 0 =
      some 42 ∧
    vfs_direct_write [mkMountedFs .FAT32 [110] [47] probeFs] rootPath []
      [1] 1 0 = some 7 ∧
    (42 : Int) ≠ -ERROR_INVALID_FILE_PATH ∧
    (7 : Int) ≠ -ERROR_INVALID_FILE_PATH :=
  ⟨rfl, rfl, by decide, by decide⟩

/-- C9: when `get_file` succeeds with size `n` and the subsequent backend
read of `n` bytes at offset `0` succeeds reading `r` bytes (writing exactly
`r` bytes, `r ≤ n`), `direct_read(path, string)` returns `r`, adjusts the
string's logical length to `r`, and places a NUL byte at index `r` of the
string's buffer. -/
theorem c9_direct_read_string (reg : List MountedFs) (cwd : Path)
    (p : bstr) (content : List Nat) (m : MountedFs) (f : File) (r : ReadResult)
    (hsel : get_fs reg (get_path cwd p) = some m)
    (hget : m.file_system.get_file (get_fs_path (get_path cwd p) m) = (0, f))
    (hread : m.file_system.read (get_fs_path (get_path cwd p) m) f.size 0 = r)
    (hcode : r.code = 0) (hdata : r.data.length = r.read)
    (hle : r.read ≤ f.size) :
    ∃ buf, vfs_direct_read_str reg cwd p content =
        some (((r.read : Nat) : Int), buf, r.read) ∧
      buf.get? r.read = some 0 := by
  refine ⟨(writeAt (content ++ List.replicate (f.size + 1 - content.length) 0)
    r.data).set r.read 0, ?_, ?_⟩
  · simp only [vfs_direct_read_str, hsel, hget, hread, hcode]
    norm_num
  · rw [List.get?_eq_getElem?]
    apply List.getElem?_set_eq_of_lt
    have hbuf : (content ++ List.replicate (f.size + 1 - content.length)
        0).length = max content.length (f.size + 1) := by
      simp
      omega
    have hwlen : r.data.length ≤ (content ++ List.replicate
        (f.size + 1 - content.length) 0).length := by
      rw [hbuf, hdata]
      omega
    rw [writeAt, List.length_append, List.length_drop]
    omega

/-- A backend holding a 3-byte file `[10, 20, 30]`. -/
def strFs : FileSystem :=
  { dummyFs with
    get_file := fun _ => (0, ⟨[], 3, false, false, false, 0, 0, 0⟩)
    read := fun _ _ _ => ⟨0, 3, [10, 20, 30]⟩ }

/-- Witness for C9: reading `/f` (3 bytes) into an empty string returns 3,
sets the logical length to 3 and leaves a NUL at index 3. -/
theorem c9_direct_read_string_witness :
    ∃ buf, vfs_direct_read_str [mkMountedFs .FAT32 [110] [47] strFs] rootPath
        slashF [] = some (((3 : Nat) : Int), buf, 3) ∧
      buf.get? 3 = some 0 :=
  c9_direct_read_string [mkMountedFs .FAT32 [110] [47] strFs] rootPath slashF
    [] (mkMountedFs .FAT32 [110] [47] strFs)
    ⟨[], 3, false, false, false, 0, 0, 0⟩ ⟨0, 3, [10, 20, 30]⟩
    rfl rfl rfl rfl rfl (by decide)

/-! ## Serialization lemmas -/

theorem entriesTotalSize_cons (f : File) (rest : List File) :
    entriesTotalSize (f :: rest) =
      (sizeof_directory_entry + f.file_name.length) + entriesTotalSize rest := by
  have haux : ∀ (l : List File) (a : Nat),
      l.foldl (fun acc x => acc + (sizeof_directory_entry + x.file_name.length)) a =
      a + l.foldl
        (fun acc x => acc + (sizeof_directory_entry + x.file_name.length)) 0 := by
    intro l
    induction l with
    | nil => intro a; simp
    | cons x xs ih =>
      intro a
      simp only [List.foldl_cons]
      rw [ih (a + (sizeof_directory_entry + x.file_name.length)),
        ih (0 + (sizeof_directory_entry + x.file_name.length))]
      omega
  unfold entriesTotalSize
  simp only [List.foldl_cons]
  rw [haux rest (0 + (sizeof_directory_entry + f.file_name.length))]
  omega

theorem serializeEntries_length (files : List File) :
    (serializeEntries files).length = entriesTotalSize files := by
  induction files with
  | nil => rfl
  | cons f rest ih =>
    rw [entriesTotalSize_cons]
    simp only [serializeEntries, List.length_append, length_encodeWord,
      List.length_cons, List.length_nil, ih, sizeof_directory_entry]
    omega

theorem drop16_encode2 (a b : Nat) (t : List Nat) :
    (encodeWord a ++ (encodeWord b ++ t)).drop 16 = t := rfl

theorem drop24_encode3 (a b c : Nat) (t : List Nat) :
    (encodeWord a ++ (encodeWord b ++ (encodeWord c ++ t))).drop 24 = t := rfl

theorem drop_dir_entry (a b c : Nat) (name rest : List Nat) :
    (encodeWord a ++ (encodeWord b ++ (encodeWord c ++
      (name ++ ([0] ++ rest))))).drop (name.length + 25) = rest := by
  have h1 : encodeWord a ++ (encodeWord b ++ (encodeWord c ++
      (name ++ ([0] ++ rest)))) =
      (encodeWord a ++ encodeWord b ++ encodeWord c ++ name ++ [0]) ++ rest := by
    simp [List.append_assoc]
  have h2 : (encodeWord a ++ encodeWord b ++ encodeWord c ++ name ++
      [0]).length = name.length + 25 := by
    simp only [List.length_append, length_encodeWord, List.length_cons,
      List.length_nil]
    omega
  rw [h1, ← h2, List.drop_left]

theorem serializeEntries_cons (f : File) (rest : List File) :
    serializeEntries (f :: rest) =
      encodeWord (if rest.isEmpty then 0 else f.file_name.length + 1 + 3 * 8) ++
      (encodeWord 0 ++ (encodeWord f.file_name.length ++
        (f.file_name ++ ([0] ++ serializeEntries rest)))) := by
  simp [serializeEntries, List.append_assoc]

theorem parseDirEntries_serializeEntries (files : List File)
    (h : ∀ f ∈ files, f.file_name.length + 25 < 2 ^ 64) :
    parseDirEntries files.length (serializeEntries files) =
      expectedDirEntries files := by
  induction files with
  | nil => rfl
  | cons f rest ih =>
    have hf := h f (List.mem_cons_self f rest)
    rw [serializeEntries_cons]
    cases rest with
    | nil =>
      simp only [List.isEmpty_nil, if_pos, List.length_cons, List.length_nil,
        Nat.zero_add, parseDirEntries]
      rw [drop16_encode2, drop24_encode3,
        readWord_encodeWord 0 _ (by omega),
        readWord_encodeWord f.file_name.length _ (by omega)]
      rw [if_pos rfl, List.take_left]
      rfl
    | cons g gs =>
      have hdrop : (encodeWord (f.file_name.length + 1 + 3 * 8) ++
          (encodeWord 0 ++ (encodeWord f.file_name.length ++
            (f.file_name ++ ([0] ++ serializeEntries (g :: gs)))))).drop
          (f.file_name.length + 1 + 3 * 8) = serializeEntries (g :: gs) := by
        have hstep := drop_dir_entry (f.file_name.length + 1 + 3 * 8) 0
          f.file_name.length f.file_name (serializeEntries (g :: gs))
        rw [show f.file_name.length + 25 = f.file_name.length + 1 + 3 * 8
          from by omega] at hstep
        exact hstep
      have ihh := ih (fun x hx => h x (List.mem_cons_of_mem f hx))
      rw [List.length_cons] at ihh
      simp only [parseDirEntries] at ihh
      have hie : (g :: gs).isEmpty = false := rfl
      rw [hie]
      simp only [Bool.false_eq_true, if_false, List.length_cons,
        parseDirEntries]
      rw [drop16_encode2, drop24_encode3,
        readWord_encodeWord (f.file_name.length + 1 + 3 * 8) _ (by omega),
        readWord_encodeWord f.file_name.length _ (by omega)]
      have hoff : ¬ f.file_name.length + 1 + 3 * 8 = 0 := by omega
      rw [if_neg hoff, List.take_left, hdrop, ihh]
      rfl

/-- C3: for a descriptor whose backend `ls` succeeds with `files`, `entries`
fails with `-BUFFER_SMALL` exactly when the buffer size is less than the sum
over files of `sizeof(directory_entry) + len(file_name)`; on success it
returns that sum, writes exactly that many bytes, and the emitted records —
read by chasing `offset_next` — carry `offset_next = len(file_name) + 1 +
3 * 8` for every non-last entry and `0` for the last, together with each
name's length and bytes. -/
theorem c3_entries_serializer (reg : List MountedFs) (table : List Path)
    (fd : Nat) (size : Nat) (base : Path) (m : MountedFs) (files : List File)
    (hfd : table.get? fd = some base)
    (hsel : get_fs reg base = some m)
    (hls : m.file_system.ls (get_fs_path base m) = (0, files))
    (hsmall : ∀ f ∈ files, f.file_name.length + 25 < 2 ^ 64) :
    (vfs_entries reg table fd size = some (-ERROR_BUFFER_SMALL, []) ↔
      size < entriesTotalSize files) ∧
    (entriesTotalSize files ≤ size →
      vfs_entries reg table fd size =
        some (((entriesTotalSize files : Nat) : Int), serializeEntries files) ∧
      (serializeEntries files).length = entriesTotalSize files ∧
      parseDirEntries files.length (serializeEntries files) =
        expectedDirEntries files) := by
  have hbase : vfs_entries reg table fd size =
      (if size < entriesTotalSize files then some (-ERROR_BUFFER_SMALL, [])
       else some (((entriesTotalSize files : Nat) : Int),
         serializeEntries files)) := by
    simp only [vfs_entries, hfd, hsel, hls]
    norm_num
  constructor
  · constructor
    · intro hres
      by_contra hlt
      rw [hbase, if_neg hlt] at hres
      rw [Option.some_inj, Prod.mk.injEq] at hres
      have h1 := hres.1
      rw [ERROR_BUFFER_SMALL] at h1
      omega
    · intro hlt
      rw [hbase, if_pos hlt]
  · intro hge
    refine ⟨?_, serializeEntries_length files,
      parseDirEntries_serializeEntries files hsmall⟩
    rw [hbase, if_neg (by omega)]

/-- A backend listing two files named `"a"` and `"bb"`. -/
def lsFs : FileSystem :=
  { dummyFs with
    ls := fun _ => (0,
      [⟨[97], 1, false, false, false, 0, 0, 0⟩,
       ⟨[98, 98], 2, false, false, false, 0, 0, 0⟩]) }

/-- The two-file listing used by the C3 witness. -/
def lsFiles : List File :=
  [⟨[97], 1, false, false, false, 0, 0, 0⟩,
   ⟨[98, 98], 2, false, false, false, 0, 0, 0⟩]

/-- Witness for C3: over a directory listing `["a", "bb"]` (required size
`25 + 1 + 25 + 2 = 53`), a 100-byte buffer succeeds: the call returns 53,
the trace is 53 bytes, and parsing recovers offsets `26, 0`, lengths `1, 2`
and the names. -/
theorem c3_entries_serializer_witness :
    (vfs_entries [mkMountedFs .FAT32 [110] [47] lsFs] [rootPath] 0 100 =
        some (-ERROR_BUFFER_SMALL, []) ↔
      100 < entriesTotalSize lsFiles) ∧
    (entriesTotalSize lsFiles ≤ 100 →
      vfs_entries [mkMountedFs .FAT32 [110] [47] lsFs] [rootPath] 0 100 =
        some (((entriesTotalSize lsFiles : Nat) : Int),
          serializeEntries lsFiles) ∧
      (serializeEntries lsFiles).length = entriesTotalSize lsFiles ∧
      parseDirEntries lsFiles.length (serializeEntries lsFiles) =
        expectedDirEntries lsFiles) :=
  c3_entries_serializer [mkMountedFs .FAT32 [110] [47] lsFs] [rootPath] 0 100
    rootPath (mkMountedFs .FAT32 [110] [47] lsFs) lsFiles rfl rfl rfl
    (by decide)

/-! ## Mount-listing serializer lemmas -/

theorem mountsTotalSize_cons (mp : MountedFs) (rest : List MountedFs) :
    mountsTotalSize (mp :: rest) =
      mountRecordSize mp + mountsTotalSize rest := by
  have haux : ∀ (l : List MountedFs) (a : Nat),
      l.foldl (fun acc x => acc + mountRecordSize x) a =
      a + l.foldl (fun acc x => acc + mountRecordSize x) 0 := by
    intro l
    induction l with
    | nil => intro a; simp
    | cons x xs ih =>
      intro a
      simp only [List.foldl_cons]
      rw [ih (a + mountRecordSize x), ih (0 + mountRecordSize x)]
      omega
  unfold mountsTotalSize
  simp only [List.foldl_cons]
  rw [haux rest (0 + mountRecordSize mp)]
  omega

theorem serializeMounts_cons (mp : MountedFs) (rest : List MountedFs) :
    serializeMounts (mp :: rest) =
      encodeWord (if rest.isEmpty then 0 else mountRecordSize mp) ++
      (encodeWord mp.mount_point.length ++ (encodeWord mp.device.length ++
        (encodeWord (partition_type_to_string mp.fs_type).length ++
          (mp.mount_point ++ 0 :: (mp.device ++ 0 ::
            (partition_type_to_string mp.fs_type ++ 0 ::
              serializeMounts rest)))))) := by
  simp [serializeMounts, List.append_assoc]

theorem serializeMounts_length (reg : List MountedFs) :
    (serializeMounts reg).length = mountsTotalSize reg := by
  induction reg with
  | nil => rfl
  | cons mp rest ih =>
    rw [mountsTotalSize_cons, serializeMounts_cons]
    simp only [List.length_append, length_encodeWord, List.length_cons,
      ih, mountRecordSize]
    omega

theorem drop32_encode4 (a b c d : Nat) (t : List Nat) :
    (encodeWord a ++ (encodeWord b ++ (encodeWord c ++
      (encodeWord d ++ t)))).drop 32 = t := rfl

theorem readCStr_append (s : List Nat) (t : List Nat) (hs : 0 ∉ s) :
    readCStr (s ++ 0 :: t) = s := by
  induction s with
  | nil => rfl
  | cons c cs ih =>
    have hc : c ≠ 0 := fun h => hs (h ▸ List.mem_cons_self c cs)
    simp only [readCStr, List.cons_append, List.takeWhile_cons]
    have ihh := ih (fun h => hs (List.mem_cons_of_mem c h))
    rw [readCStr] at ihh
    rw [ihh, if_pos (by simpa using hc)]

theorem drop_cstr (s t : List Nat) : (s ++ 0 :: t).drop (s.length + 1) = t := by
  have h1 : s ++ 0 :: t = (s ++ [0]) ++ t := by simp
  have h2 : (s ++ [0]).length = s.length + 1 := by simp
  rw [h1, ← h2, List.drop_left]

theorem drop_mount_entry (a b c d : Nat) (mp dev ty rest : List Nat) :
    (encodeWord a ++ (encodeWord b ++ (encodeWord c ++ (encodeWord d ++
      (mp ++ 0 :: (dev ++ 0 :: (ty ++ 0 :: rest))))))).drop
      (4 * 8 + 3 + dev.length + mp.length + ty.length) = rest := by
  have h1 : encodeWord a ++ (encodeWord b ++ (encodeWord c ++ (encodeWord d ++
      (mp ++ 0 :: (dev ++ 0 :: (ty ++ 0 :: rest)))))) =
      (encodeWord a ++ encodeWord b ++ encodeWord c ++ encodeWord d ++
        mp ++ [0] ++ dev ++ [0] ++ ty ++ [0]) ++ rest := by
    simp
  have h2 : (encodeWord a ++ encodeWord b ++ encodeWord c ++ encodeWord d ++
      mp ++ [0] ++ dev ++ [0] ++ ty ++ [0]).length =
      4 * 8 + 3 + dev.length + mp.length + ty.length := by
    simp only [List.length_append, length_encodeWord, List.length_cons,
      List.length_nil]
    omega
  rw [h1, ← h2, List.drop_left]

theorem noNul_type (t : PartitionType) : 0 ∉ partition_type_to_string t := by
  cases t <;> decide

theorem parseMounts_serializeMounts (reg : List MountedFs)
    (h : ∀ m ∈ reg, 0 ∉ m.mount_point ∧ 0 ∉ m.device ∧
      mountRecordSize m < 2 ^ 64) :
    parseMounts reg.length (serializeMounts reg) =
      reg.map (fun m =>
        (m.mount_point, m.device, partition_type_to_string m.fs_type)) := by
  induction reg with
  | nil => rfl
  | cons mp rest ih =>
    obtain ⟨hmp, hdev, hsz⟩ := h mp (List.mem_cons_self mp rest)
    rw [serializeMounts_cons]
    cases rest with
    | nil =>
      simp only [List.isEmpty_nil, if_pos, List.length_cons, List.length_nil,
        Nat.zero_add, parseMounts]
      rw [drop32_encode4, readWord_encodeWord 0 _ (by omega), if_pos rfl,
        readCStr_append mp.mount_point _ hmp, drop_cstr,
        readCStr_append mp.device _ hdev, drop_cstr,
        readCStr_append (partition_type_to_string mp.fs_type) _
          (noNul_type mp.fs_type)]
      rfl
    | cons g gs =>
      have hne : ¬ mountRecordSize mp = 0 := by
        unfold mountRecordSize
        omega
      have ihh := ih (fun x hx => h x (List.mem_cons_of_mem mp hx))
      rw [List.length_cons] at ihh
      simp only [parseMounts] at ihh
      have hie : (g :: gs).isEmpty = false := rfl
      rw [hie]
      simp only [Bool.false_eq_true, if_false, List.length_cons, parseMounts]
      rw [drop32_encode4, readWord_encodeWord (mountRecordSize mp) _ (by omega),
        if_neg hne,
        readCStr_append mp.mount_point _ hmp, drop_cstr,
        readCStr_append mp.device _ hdev, drop_cstr,
        readCStr_append (partition_type_to_string mp.fs_type) _
          (noNul_type mp.fs_type)]
      have hdrop : (encodeWord (mountRecordSize mp) ++
          (encodeWord mp.mount_point.length ++ (encodeWord mp.device.length ++
            (encodeWord (partition_type_to_string mp.fs_type).length ++
              (mp.mount_point ++ 0 :: (mp.device ++ 0 ::
                (partition_type_to_string mp.fs_type ++ 0 ::
                  serializeMounts (g :: gs)))))))).drop (mountRecordSize mp) =
          serializeMounts (g :: gs) := by
        have hstep := drop_mount_entry (mountRecordSize mp)
          mp.mount_point.length mp.device.length
          (partition_type_to_string mp.fs_type).length
          mp.mount_point mp.device (partition_type_to_string mp.fs_type)
          (serializeMounts (g :: gs))
        rw [show 4 * 8 + 3 + mp.device.length + mp.mount_point.length +
            (partition_type_to_string mp.fs_type).length = mountRecordSize mp
          from by unfold mountRecordSize; omega] at hstep
        exact hstep
      rw [hdrop, ihh]
      rfl

/-- C4: with a buffer of at least the required size, `mounts` returns the
sum over mounts of `4 * sizeof(size_t) + 3 + len(device) + len(mount_point)
+ len(fs_type_string)`, the byte trace written is exactly that long, and
parsing the emitted records (advancing by `offset_next` until it is `0` and
reading the three NUL-terminated strings mount_point, device, fs_type)
reproduces the registry's triples in registration order. -/
theorem c4_mounts_roundtrip (reg : List MountedFs) (size : Nat)
    (hwf : ∀ m ∈ reg, 0 ∉ m.mount_point ∧ 0 ∉ m.device ∧
      mountRecordSize m < 2 ^ 64)
    (hsize : mountsTotalSize reg ≤ size) :
    vfs_mounts reg size =
      (((mountsTotalSize reg : Nat) : Int), serializeMounts reg) ∧
    (serializeMounts reg).length = mountsTotalSize reg ∧
    parseMounts reg.length (serializeMounts reg) =
      reg.map (fun m =>
        (m.mount_point, m.device, partition_type_to_string m.fs_type)) := by
  refine ⟨?_, serializeMounts_length reg, parseMounts_serializeMounts reg hwf⟩
  simp only [vfs_mounts]
  rw [if_neg (by omega)]

/-- The two-mount registry `[/ (FAT32), /sys/ (sysfs)]` used by the C4
witness. -/
def twoMounts : List MountedFs :=
  [mkMountedFs .FAT32 [110] [47] dummyFs,
   mkMountedFs .SYSFS [110] [47, 115, 121, 115, 47] dummyFs]

/-- Witness for C4: for the registry `[/ (FAT32), /sys/ (sysfs)]` (record
sizes 42 and 46) a 200-byte buffer succeeds and parsing reproduces both
`(mount_point, device, fs_type)` triples in order. -/
theorem c4_mounts_roundtrip_witness :
    vfs_mounts twoMounts 200 =
      (((mountsTotalSize twoMounts : Nat) : Int), serializeMounts twoMounts) ∧
    (serializeMounts twoMounts).length = mountsTotalSize twoMounts ∧
    parseMounts twoMounts.length (serializeMounts twoMounts) =
      twoMounts.map (fun m =>
        (m.mount_point, m.device, partition_type_to_string m.fs_type)) :=
  c4_mounts_roundtrip twoMounts 200 (by decide) (by decide)

end ThorVfs
